import Mathlib

/-!
Verification of the batch acquisition + checkpoint/resume engine of
`src/scraping/batch_scraper.py` (class `AdvancedPlayStoreScraper`).

The embedding models identifiers as strings, the fetch client as an
attempt-indexed oracle (`Nat → Option α`: what the external call would
return on the n-th attempt, `none` meaning it raises), the checkpoint
store as an `Option Checkpoint` (the file either exists with a state or
does not), and batch artifacts as lists of records in creation order.
Each definition below follows one Python method of the scraper.
-/

/-- One fetched app record: the payload returned by the external `app()`
call is opaque to the core (modelled by `appId` plus an opaque `payload`
string), and `scraped_reviews` models the optional dictionary key of the
same name (`none` = key absent). -/
structure AppData where
  appId : String
  payload : String
  scraped_reviews : Option (List String)
deriving DecidableEq

/-- The persisted checkpoint record, as read/written by
`load_checkpoint` / `save_checkpoint`. -/
structure Checkpoint where
  scraped_app_ids : List String
  failed_app_ids : List String
deriving DecidableEq

/-- `load_checkpoint`: return the stored state if the checkpoint file
exists, else the empty state. -/
def load_checkpoint : Option Checkpoint → Checkpoint
  | some c => c
  | none => ⟨[], []⟩

/-- `save_checkpoint`: overwrite the store with the given state. -/
def save_checkpoint (_store : Option Checkpoint) (c : Checkpoint) : Option Checkpoint :=
  some c

/-- Observable trace of one `scrape_app_safely`-style retry loop: the
returned value (`none` = the final `return None`), the messages written
to the error log, the `time.sleep` durations in order, and the number of
invocations of the fetch operation. -/
structure RetryTrace (α : Type) where
  result : Option α
  errors : List String
  sleeps : List Nat
  calls : Nat
deriving DecidableEq

/-- The error-log message of `scrape_app_safely` (exception text elided). -/
def failMsg (appId : String) : String := "Failed to scrape " ++ appId

/-- The loop body of `scrape_app_safely`: `for attempt in range(retries)`,
with `fuel = retries - attempt` attempts left. On success return the
result; on the last attempt log and return `None`; otherwise sleep
`2 ** attempt` and retry. -/
def scrapeLoop (fetch : Nat → Option α) (appId : String) (retries : Nat) :
    Nat → Nat → RetryTrace α
  | _, 0 => ⟨none, [], [], 0⟩
  | attempt, fuel + 1 =>
    match fetch attempt with
    | some r => ⟨some r, [], [], 1⟩
    | none =>
      if attempt = retries - 1 then
        ⟨none, [failMsg appId], [], 1⟩
      else
        let t := scrapeLoop fetch appId retries (attempt + 1) fuel
        ⟨t.result, t.errors, 2 ^ attempt :: t.sleeps, t.calls + 1⟩

/-- `scrape_app_safely(app_id, retries)`: run the retry loop from
attempt 0. -/
def scrape_app_safely (fetch : Nat → Option α) (appId : String) (retries : Nat) :
    RetryTrace α :=
  scrapeLoop fetch appId retries 0 retries

/-- Observable trace of `scrape_reviews_safely`: the review list returned
(`[]` on failure), the error-log messages, and the number of invocations
of the external `reviews()` call. -/
structure ReviewsTrace where
  result : List String
  errors : List String
  calls : Nat
deriving DecidableEq

/-- The error-log message of `scrape_reviews_safely` (exception text elided). -/
def failReviewsMsg (appId : String) : String := "Failed to scrape reviews for " ++ appId

/-- `scrape_reviews_safely(app_id, count)`: a single `try/except` around
one `reviews()` call; on exception log the error and return `[]`. -/
def scrape_reviews_safely (fetch : Nat → Option (List String)) (appId : String) :
    ReviewsTrace :=
  match fetch 0 with
  | some rs => ⟨rs, [], 1⟩
  | none => ⟨[], [failReviewsMsg appId], 1⟩

/-- Insertion into the Python `set` of discovered / scraped ids, observed
as a duplicate-free list: `s.add(x)` is a no-op when `x` is present. -/
def addId (ids : List String) (appId : String) : List String :=
  if appId ∈ ids then ids else ids ++ [appId]

/-- `discover_apps_by_categories`: accumulate `result['appId']` of every
search hit into one set, skipping a whole query when `search` raises
(`none`), and return the set as a list. -/
def discover_apps_by_categories (search : String → Option (List String))
    (categories : List String) : List String :=
  categories.foldl (fun acc cat =>
    match search cat with
    | some results => results.foldl addId acc
    | none => acc) []

/-- In-memory state of the `batch_scrape_apps` loop: the `scraped_ids`
set, the `scraped_data` accumulator, the batch artifacts written so far
(in creation order), and the identifiers iterated so far. -/
structure RunState where
  scrapedIds : List String
  accum : List AppData
  batches : List (List AppData)
  processed : List String
deriving DecidableEq

/-- `_save_batch(data)`: write a new uniquely named artifact holding
`data`, unless `data` is empty, in which case write nothing. -/
def saveBatch (batches : List (List AppData)) (data : List AppData) :
    List (List AppData) :=
  if data = [] then batches else batches ++ [data]

/-- The `for idx, app_id in enumerate(remaining_ids)` loop of
`batch_scrape_apps`: fetch details through `scrape_app_safely` (3
attempts), optionally attach reviews, append to the accumulator, add to
`scraped_ids`, and flush accumulator + checkpoint whenever
`(idx + 1) % save_interval == 0`. -/
def runLoop (fetchD : String → Nat → Option AppData)
    (fetchR : String → Nat → Option (List String))
    (includeReviews : Bool) (saveInterval : Nat) :
    List String → Nat → RunState → RunState
  | [], _, st => st
  | appId :: rest, idx, st =>
    let st1 : RunState := { st with processed := st.processed ++ [appId] }
    match (scrape_app_safely (fetchD appId) appId 3).result with
    | none => runLoop fetchD fetchR includeReviews saveInterval rest (idx + 1) st1
    | some d =>
      let d2 := if includeReviews then
          { d with scraped_reviews := some (scrape_reviews_safely (fetchR appId) appId).result }
        else d
      let accum2 := st1.accum ++ [d2]
      let scraped2 := addId st1.scrapedIds appId
      if (idx + 1) % saveInterval = 0 then
        runLoop fetchD fetchR includeReviews saveInterval rest (idx + 1)
          ⟨scraped2, [], saveBatch st1.batches accum2, st1.processed⟩
      else
        runLoop fetchD fetchR includeReviews saveInterval rest (idx + 1)
          ⟨scraped2, accum2, st1.batches, st1.processed⟩

/-- Result of one `batch_scrape_apps` run: the final (persisted)
checkpoint, the batch artifacts written, and the identifiers the loop
actually iterated. -/
structure RunResult where
  checkpoint : Checkpoint
  batches : List (List AppData)
  processed : List String
deriving DecidableEq

/-- `batch_scrape_apps(app_ids, include_reviews, reviews_per_app,
save_interval)`: load the checkpoint, filter out already-scraped ids,
return immediately when nothing remains, else run the loop, flush any
non-empty remainder, and persist the final checkpoint (note:
`failed_app_ids` is carried through unchanged). -/
def batch_scrape_apps (fetchD : String → Nat → Option AppData)
    (fetchR : String → Nat → Option (List String))
    (includeReviews : Bool) (saveInterval : Nat)
    (store : Option Checkpoint) (appIds : List String) : RunResult :=
  let checkpoint := load_checkpoint store
  let scrapedIds := checkpoint.scraped_app_ids.dedup
  let remaining := appIds.filter (fun a => decide (a ∉ scrapedIds))
  if remaining = [] then
    ⟨checkpoint, [], []⟩
  else
    let fin := runLoop fetchD fetchR includeReviews saveInterval remaining 0
      ⟨scrapedIds, [], [], []⟩
    let batches2 := if fin.accum = [] then fin.batches else saveBatch fin.batches fin.accum
    ⟨⟨fin.scrapedIds, checkpoint.failed_app_ids⟩, batches2, fin.processed⟩

/-- `merge_batches`: concatenate the record lists of every batch artifact,
in listing order, into one merged list (no deduplication is performed). -/
def merge_batches (batchFiles : List (List AppData)) : List AppData :=
  batchFiles.foldl (fun acc d => acc ++ d) []

/-! ### Fixtures used in concrete counterexamples and witnesses -/

/-- Sample identifier used in concrete retry traces. -/
def sampleId : String := "some.app"

/-- The identifier of the spec's discovery-dedup example. -/
def exampleApp : String := "com.example.app"

/-- A record for identifier `X` as it would appear in an earlier artifact. -/
def recA : AppData := ⟨"X", "from-artifact-A", none⟩

/-- A record for identifier `X` as it would appear in a later artifact. -/
def recB : AppData := ⟨"X", "from-artifact-B", none⟩

/-- A detail-fetch oracle that always raises. -/
def failFetch : String → Nat → Option AppData := fun _ _ => none

/-- A detail-fetch oracle that succeeds on every attempt. -/
def okFetch : String → Nat → Option AppData := fun appId _ => some ⟨appId, "payload", none⟩

/-- Three more sample identifiers for concrete runs. -/
def idA : String := "alpha.app"

/-- Second sample identifier. -/
def idB : String := "beta.app"

/-- Third sample identifier. -/
def idC : String := "gamma.app"

/-- A detail fetch where `idA` always fails and every other identifier
succeeds immediately. -/
def mixedFetch : String → Nat → Option AppData :=
  fun appId _ => if appId = idA then none else some ⟨appId, "payload", none⟩

/-- Twenty-five distinct identifiers. -/
def ids25 : List String := (List.range 25).map (fun n => ("app" ++ toString n))

/-- A reviews fetch that raises on the first attempt and would succeed on
any later attempt. -/
def flakyReviews : Nat → Option (List String) :=
  fun n => if n = 0 then none else some [exampleApp]

/-- First sample category. -/
def catSocial : String := "social media"

/-- Second sample category. -/
def catGames : String := "puzzle games"

/-- A search capability whose two categories both return
`com.example.app` among their hits. -/
def overlappingSearch : String → Option (List String) :=
  fun cat => if cat = catSocial then some [exampleApp, idA]
    else if cat = catGames then some [exampleApp, idB] else none

/-! ### Retry policy lemmas -/

/-- Sleeps of the retry loop when every attempt fails: starting at
`attempt` with `retries - attempt` attempts left, the recorded backoff
waits are `2 ^ attempt, 2 ^ (attempt + 1), …, 2 ^ (retries - 2)`. -/
theorem scrapeLoop_allFail_sleeps {α : Type} (fetch : Nat → Option α) (appId : String)
    (retries : Nat) (hf : ∀ i, fetch i = none) :
    ∀ (fuel attempt : Nat), attempt + fuel = retries →
    (scrapeLoop fetch appId retries attempt fuel).sleeps
        = (List.range' attempt (retries - 1 - attempt)).map (fun i => 2 ^ i) := by
  intro fuel
  induction fuel with
  | zero =>
    intro attempt h
    have h0 : retries - 1 - attempt = 0 := by omega
    simp [scrapeLoop, h0]
  | succ n ih =>
    intro attempt h
    by_cases hlast : attempt = retries - 1
    · have h0 : retries - 1 - attempt = 0 := by omega
      simp [scrapeLoop, hf, hlast, h0]
    · have hlen : retries - 1 - attempt = (retries - 1 - (attempt + 1)) + 1 := by omega
      simp only [scrapeLoop, hf attempt, if_neg hlast]
      rw [ih (attempt + 1) (by omega), hlen, List.range'_succ]
      simp

/-- Full trace of the retry loop when every attempt fails and at least
one attempt remains: exactly one error-log message, a `None` result, and
one fetch invocation per remaining attempt. -/
theorem scrapeLoop_allFail_trace {α : Type} (fetch : Nat → Option α) (appId : String)
    (retries : Nat) (hf : ∀ i, fetch i = none) :
    ∀ (fuel attempt : Nat), attempt + fuel = retries → 1 ≤ fuel →
    (scrapeLoop fetch appId retries attempt fuel).errors = [failMsg appId]
    ∧ (scrapeLoop fetch appId retries attempt fuel).result = (none : Option α)
    ∧ (scrapeLoop fetch appId retries attempt fuel).calls = fuel := by
  intro fuel
  induction fuel with
  | zero => intro attempt h h1; omega
  | succ n ih =>
    intro attempt h _
    by_cases hlast : attempt = retries - 1
    · have hn : n = 0 := by omega
      simp [scrapeLoop, hf, hlast, hn]
    · have hn : 1 ≤ n := by omega
      have hrec := ih (attempt + 1) (by omega) hn
      simp only [scrapeLoop, hf attempt, if_neg hlast]
      exact ⟨hrec.1, hrec.2.1, by rw [hrec.2.2]⟩

/-! ### C5: retry backoff exponent -/

/-- C5 counterexample: with three always-failing attempts the code sleeps
`2 ** attempt` for `attempt = 0, 1`, i.e. `[1, 2]` — not `[2, 4]` as the
claimed waits `base ^ k` (1-indexed `k`) would require; in particular the
wait after the first failed attempt is `1`, not `2`. -/
theorem retry_backoff_cex :
    (scrape_app_safely (fun _ => (none : Option AppData)) sampleId 3).sleeps = [1, 2]
    ∧ [1, 2] ≠ ([2, 4] : List Nat) := by
  exact ⟨by decide, by decide⟩

/-- C5 (amended): between attempt `k` and `k+1` (1-indexed,
`k < max_attempts`) the retry loop waits `2 ^ (k - 1)` time units: when
every attempt fails, the recorded sleep sequence is
`2 ^ 0, 2 ^ 1, …, 2 ^ (max_attempts - 2)`. -/
theorem retry_backoff_amended {α : Type} (fetch : Nat → Option α) (appId : String)
    (retries : Nat) (hf : ∀ i, fetch i = none) :
    (scrape_app_safely fetch appId retries).sleeps
        = (List.range (retries - 1)).map (fun i => 2 ^ i) := by
  have h := scrapeLoop_allFail_sleeps fetch appId retries hf retries 0 (by omega)
  rw [scrape_app_safely, h, List.range_eq_range']
  simp

/-- C5 witness: the amended backoff law evaluated at an always-failing
fetch with 4 attempts: sleeps `[1, 2, 4]`. -/
theorem retry_backoff_amended_witness :
    (scrape_app_safely (fun _ => (none : Option AppData)) sampleId 4).sleeps
        = (List.range 3).map (fun i => 2 ^ i) :=
  retry_backoff_amended (fun _ => (none : Option AppData)) sampleId 4 (fun _ => rfl)

/-! ### C6: error reporting of intermediate failures -/

/-- C6 counterexample: three attempts all fail, but exactly one message
is written to the error log — the two intermediate failures are not
reported, contradicting the claim that every failure is reported. -/
theorem retry_error_reporting_cex :
    (scrape_app_safely (fun _ => (none : Option AppData)) sampleId 3).errors.length = 1
    ∧ (1 : Nat) ≠ 3 := by
  exact ⟨by decide, by decide⟩

/-- C6 (amended): only the final-attempt failure is reported to the error
sink (one log message in total), and on final-attempt failure the policy
returns `None` (a failure value, not an exception) after exactly
`max_attempts` invocations. -/
theorem retry_error_reporting_amended {α : Type} (fetch : Nat → Option α) (appId : String)
    (retries : Nat) (hf : ∀ i, fetch i = none) (hr : 1 ≤ retries) :
    (scrape_app_safely fetch appId retries).errors = [failMsg appId]
    ∧ (scrape_app_safely fetch appId retries).result = none
    ∧ (scrape_app_safely fetch appId retries).calls = retries :=
  scrapeLoop_allFail_trace fetch appId retries hf retries 0 (by omega) hr

/-- C6 witness: the amended reporting law at an always-failing fetch with
3 attempts. -/
theorem retry_error_reporting_amended_witness :
    (scrape_app_safely (fun _ => (none : Option AppData)) sampleId 3).errors
        = [failMsg sampleId]
    ∧ (scrape_app_safely (fun _ => (none : Option AppData)) sampleId 3).result = none
    ∧ (scrape_app_safely (fun _ => (none : Option AppData)) sampleId 3).calls = 3 :=
  retry_error_reporting_amended (fun _ => (none : Option AppData)) sampleId 3
    (fun _ => rfl) (by omega)

/-! ### C1: merge deduplication -/

/-- C1 counterexample: two artifacts each holding a record for identifier
`X`; `merge_batches` keeps both records (count 2, not 1), so the merged
output is not deduplicated and does not consist solely of artifact A's
record. -/
theorem merge_dedup_cex :
    merge_batches [[recA], [recB]] = [recA, recB]
    ∧ (merge_batches [[recA], [recB]]).countP (fun r => r.appId == recA.appId) = 2
    ∧ (2 : Nat) ≠ 1 := by
  exact ⟨by decide, by decide, by decide⟩

/-- Folding list append over a list of lists, starting from any
accumulator, concatenates everything in order. -/
theorem foldl_append_eq (batchFiles : List (List AppData)) :
    ∀ acc : List AppData,
      batchFiles.foldl (fun a d => a ++ d) acc = acc ++ batchFiles.flatten := by
  induction batchFiles with
  | nil => intro acc; simp
  | cons b rest ih => intro acc; simp [List.foldl_cons, ih, List.flatten]

/-- C1 (amended): `merge_batches` performs no deduplication — it returns
the concatenation of all batch artifacts in listing order, and a record
for a given identifier appears once per containing artifact: the count of
records matching any predicate is the sum of the per-artifact counts. -/
theorem merge_concat_counts (batchFiles : List (List AppData)) (p : AppData → Bool) :
    merge_batches batchFiles = batchFiles.flatten
    ∧ (merge_batches batchFiles).countP p
        = (batchFiles.map (fun b => b.countP p)).sum := by
  have h : merge_batches batchFiles = batchFiles.flatten := by
    rw [merge_batches, foldl_append_eq]
    simp
  exact ⟨h, by rw [h, List.countP_flatten]⟩

/-! ### C2: failed identifiers are never recorded -/

/-- C2 (code bug): the run never writes to `failed_app_ids` — for every
input it is carried through from the loaded checkpoint unchanged; in
particular an identifier whose three detail attempts all fail leaves the
checkpoint empty (it is in neither `completed` nor `failed`), although the
checkpoint schema has the `failed_app_ids` field and `get_statistics`
reports its length. -/
theorem failed_ids_never_recorded :
    (∀ (fetchD : String → Nat → Option AppData)
       (fetchR : String → Nat → Option (List String))
       (incl : Bool) (si : Nat) (store : Option Checkpoint) (appIds : List String),
        (batch_scrape_apps fetchD fetchR incl si store appIds).checkpoint.failed_app_ids
          = (load_checkpoint store).failed_app_ids)
    ∧ (batch_scrape_apps failFetch (fun _ _ => none) false 10 none [sampleId]).checkpoint
        = ⟨[], []⟩ := by
  constructor
  · intro fetchD fetchR incl si store appIds
    rw [batch_scrape_apps]
    split
    · rfl
    · rfl
  · decide

/-! ### C10: checkpoint round trip -/

/-- C10: saving a checkpoint state and loading it back returns the state
that was saved, and loading from an empty store returns the empty state
(both `scraped_app_ids` and `failed_app_ids` empty). -/
theorem checkpoint_roundtrip :
    (∀ (store : Option Checkpoint) (c : Checkpoint),
        load_checkpoint (save_checkpoint store c) = c)
    ∧ load_checkpoint none = ⟨[], []⟩ :=
  ⟨fun _ _ => rfl, rfl⟩

/-! ### Flush-counter arithmetic -/

/-- When `(idx + 1) % s = 0` the counter has just completed an interval:
the residue was `s - 1` and the quotient steps up by one. -/
theorem flush_mod_eq {s idx : Nat} (hs : 0 < s) (h : (idx + 1) % s = 0) :
    idx % s + 1 = s ∧ (idx + 1) / s = idx / s + 1 := by
  have hdvd : s ∣ idx + 1 := Nat.dvd_of_mod_eq_zero h
  refine ⟨?_, Nat.succ_div_of_dvd hdvd⟩
  obtain ⟨k, hk⟩ := hdvd
  cases k with
  | zero => omega
  | succ m =>
    have hmul : s * (m + 1) = s * m + s := Nat.mul_succ s m
    have hidx : idx = (s - 1) + s * m := by
      rw [hmul] at hk
      generalize s * m = q at hk ⊢
      omega
    have hmod : idx % s = s - 1 := by
      rw [hidx, Nat.add_mul_mod_self_left]
      exact Nat.mod_eq_of_lt (by omega)
    rw [hmod]
    omega

/-- When `(idx + 1) % s ≠ 0` the counter is mid-interval: the residue
steps up by one and the quotient is unchanged. -/
theorem noflush_mod_eq {s idx : Nat} (hs : 0 < s) (h : (idx + 1) % s ≠ 0) :
    (idx + 1) % s = idx % s + 1 ∧ (idx + 1) / s = idx / s := by
  have hr : idx % s < s := Nat.mod_lt idx hs
  by_cases hcase : idx % s + 1 = s
  · exfalso
    apply h
    have hexp : idx + 1 = s * (idx / s) + s := by
      have hdm := Nat.div_add_mod idx s
      generalize s * (idx / s) = q at hdm ⊢
      generalize idx % s = r at hdm hcase
      omega
    have hdvd : s ∣ idx + 1 := ⟨idx / s + 1, by rw [hexp]; ring⟩
    exact (Nat.dvd_iff_mod_eq_zero).mp hdvd
  · have hlt : idx % s + 1 < s := by omega
    constructor
    · have hexp : idx + 1 = (idx % s + 1) + s * (idx / s) := by
        have hdm := Nat.div_add_mod idx s
        generalize s * (idx / s) = q at hdm ⊢
        generalize idx % s = r at hdm ⊢
        omega
      rw [hexp, Nat.add_mul_mod_self_left]
      exact Nat.mod_eq_of_lt hlt
    · apply Nat.succ_div_of_not_dvd
      intro hdvd
      exact h ((Nat.dvd_iff_mod_eq_zero).mp hdvd)

/-! ### Set-insertion and run-loop lemmas -/

/-- Membership after a `set.add`: the old members plus the new element. -/
theorem mem_addId (ids : List String) (x y : String) :
    y ∈ addId ids x ↔ y ∈ ids ∨ y = x := by
  unfold addId
  by_cases hx : x ∈ ids
  · rw [if_pos hx]
    constructor
    · exact Or.inl
    · rintro (h | rfl)
      · exact h
      · exact hx
  · rw [if_neg hx]
    simp

/-- A `set.add` never removes members. -/
theorem subset_addId (ids : List String) (x : String) : ids ⊆ addId ids x :=
  fun _ hy => (mem_addId ids x _).mpr (Or.inl hy)

/-- A `set.add` keeps the member list duplicate-free. -/
theorem nodup_addId (ids : List String) (x : String) (h : ids.Nodup) :
    (addId ids x).Nodup := by
  unfold addId
  by_cases hx : x ∈ ids
  · rwa [if_pos hx]
  · rw [if_neg hx]
    simp [List.nodup_append, h, hx]

/-- The loop iterates exactly the identifiers it is given, in order. -/
theorem runLoop_processed (fetchD : String → Nat → Option AppData)
    (fetchR : String → Nat → Option (List String)) (incl : Bool) (si : Nat) :
    ∀ (l : List String) (idx : Nat) (st : RunState),
    (runLoop fetchD fetchR incl si l idx st).processed = st.processed ++ l := by
  intro l
  induction l with
  | nil => intro idx st; simp [runLoop]
  | cons a rest ih =>
    intro idx st
    rw [runLoop]
    cases hres : (scrape_app_safely (fetchD a) a 3).result with
    | none => simp [ih]
    | some d =>
      simp only []
      by_cases hsi : (idx + 1) % si = 0
      · simp [if_pos hsi, ih]
      · simp [if_neg hsi, ih]

/-- The in-memory `scraped_ids` set only grows during the loop. -/
theorem runLoop_scraped_mono (fetchD : String → Nat → Option AppData)
    (fetchR : String → Nat → Option (List String)) (incl : Bool) (si : Nat) :
    ∀ (l : List String) (idx : Nat) (ids : List String) (acc : List AppData)
      (bs : List (List AppData)) (pr : List String),
    ids ⊆ (runLoop fetchD fetchR incl si l idx ⟨ids, acc, bs, pr⟩).scrapedIds := by
  intro l
  induction l with
  | nil => intro idx ids acc bs pr; simp [runLoop]
  | cons a rest ih =>
    intro idx ids acc bs pr
    rw [runLoop]
    cases hres : (scrape_app_safely (fetchD a) a 3).result with
    | none =>
      dsimp only
      exact ih (idx + 1) ids acc bs (pr ++ [a])
    | some d =>
      dsimp only
      by_cases hsi : (idx + 1) % si = 0
      · rw [if_pos hsi]
        exact List.Subset.trans (subset_addId _ _) (ih (idx + 1) _ _ _ _)
      · rw [if_neg hsi]
        exact List.Subset.trans (subset_addId _ _) (ih (idx + 1) _ _ _ _)

/-- Every identifier in the work list whose detail fetch succeeds ends up
in the `scraped_ids` set. -/
theorem runLoop_success_mem (fetchD : String → Nat → Option AppData)
    (fetchR : String → Nat → Option (List String)) (incl : Bool) (si : Nat) :
    ∀ (l : List String) (idx : Nat) (ids : List String) (acc : List AppData)
      (bs : List (List AppData)) (pr : List String) (a : String),
    a ∈ l → ((scrape_app_safely (fetchD a) a 3).result).isSome = true →
    a ∈ (runLoop fetchD fetchR incl si l idx ⟨ids, acc, bs, pr⟩).scrapedIds := by
  intro l
  induction l with
  | nil => intro idx ids acc bs pr a ha _; cases ha
  | cons b rest ih =>
    intro idx ids acc bs pr a ha hs
    rw [runLoop]
    rcases List.mem_cons.mp ha with rfl | hmem
    · cases hres : (scrape_app_safely (fetchD a) a 3).result with
      | none => rw [hres] at hs; cases hs
      | some d =>
        dsimp only
        have hmemIns : a ∈ addId ids a := (mem_addId _ _ _).mpr (Or.inr rfl)
        by_cases hsi : (idx + 1) % si = 0
        · rw [if_pos hsi]
          exact runLoop_scraped_mono fetchD fetchR incl si rest (idx + 1) _ _ _ _ hmemIns
        · rw [if_neg hsi]
          exact runLoop_scraped_mono fetchD fetchR incl si rest (idx + 1) _ _ _ _ hmemIns
    · cases hres : (scrape_app_safely (fetchD b) b 3).result with
      | none =>
        dsimp only
        exact ih (idx + 1) _ _ _ _ a hmem hs
      | some d =>
        dsimp only
        by_cases hsi : (idx + 1) % si = 0
        · rw [if_pos hsi]
          exact ih (idx + 1) _ _ _ _ a hmem hs
        · rw [if_neg hsi]
          exact ih (idx + 1) _ _ _ _ a hmem hs

/-- `_save_batch` never records an empty artifact. -/
theorem saveBatch_ne_nil (batches : List (List AppData)) (data : List AppData)
    (h : ∀ b ∈ batches, b ≠ []) : ∀ b ∈ saveBatch batches data, b ≠ [] := by
  unfold saveBatch
  by_cases hd : data = []
  · rw [if_pos hd]
    exact h
  · rw [if_neg hd]
    intro b hb
    rcases List.mem_append.mp hb with h1 | h1
    · exact h b h1
    · rw [List.mem_singleton.mp h1]
      exact hd

/-- Artifacts written during the loop are never empty (the periodic flush
always follows an append to the accumulator). -/
theorem runLoop_batches_ne_nil (fetchD : String → Nat → Option AppData)
    (fetchR : String → Nat → Option (List String)) (incl : Bool) (si : Nat) :
    ∀ (l : List String) (idx : Nat) (ids : List String) (acc : List AppData)
      (bs : List (List AppData)) (pr : List String),
    (∀ b ∈ bs, b ≠ []) →
    ∀ b ∈ (runLoop fetchD fetchR incl si l idx ⟨ids, acc, bs, pr⟩).batches, b ≠ [] := by
  intro l
  induction l with
  | nil => intro idx ids acc bs pr h; simpa [runLoop] using h
  | cons a rest ih =>
    intro idx ids acc bs pr h
    rw [runLoop]
    cases hres : (scrape_app_safely (fetchD a) a 3).result with
    | none =>
      dsimp only
      exact ih (idx + 1) _ _ _ _ h
    | some d =>
      dsimp only
      by_cases hsi : (idx + 1) % si = 0
      · rw [if_pos hsi]
        exact ih (idx + 1) _ _ _ _ (saveBatch_ne_nil _ _ h)
      · rw [if_neg hsi]
        exact ih (idx + 1) _ _ _ _ h

/-- Filtering on non-membership in a deduplicated list equals filtering
on non-membership in the original list. -/
theorem filter_not_mem_dedup (ids l : List String) :
    l.filter (fun a => decide (a ∉ ids.dedup)) = l.filter (fun a => decide (a ∉ ids)) := by
  apply List.filter_congr
  intro a _
  simp [List.mem_dedup]

/-! ### C9: no empty batch artifacts -/

/-- C9: every batch artifact written by a `batch_scrape_apps` run is
non-empty: the periodic flush always directly follows an append to the
accumulator, and both the final flush guard and `_save_batch` itself skip
empty data. -/
theorem no_empty_batch_artifact (fetchD : String → Nat → Option AppData)
    (fetchR : String → Nat → Option (List String)) (incl : Bool) (si : Nat)
    (store : Option Checkpoint) (appIds : List String) :
    ∀ b ∈ (batch_scrape_apps fetchD fetchR incl si store appIds).batches, b ≠ [] := by
  simp only [batch_scrape_apps]
  by_cases h0 : appIds.filter
      (fun a => decide (a ∉ (load_checkpoint store).scraped_app_ids.dedup)) = []
  · rw [if_pos h0]
    intro b hb
    cases hb
  · rw [if_neg h0]
    dsimp only
    have hloop := runLoop_batches_ne_nil fetchD fetchR incl si
      (appIds.filter (fun a => decide (a ∉ (load_checkpoint store).scraped_app_ids.dedup))) 0
      ((load_checkpoint store).scraped_app_ids.dedup) [] [] []
      (by intro b hb; cases hb)
    by_cases hacc : (runLoop fetchD fetchR incl si
        (appIds.filter (fun a => decide (a ∉ (load_checkpoint store).scraped_app_ids.dedup))) 0
        ⟨(load_checkpoint store).scraped_app_ids.dedup, [], [], []⟩).accum = []
    · rw [if_pos hacc]
      exact hloop
    · rw [if_neg hacc]
      exact saveBatch_ne_nil _ _ hloop

/-- C9 witness: a one-identifier successful run with `save_interval = 1`
writes the sole artifact `[record]`, which the theorem certifies to be
non-empty. -/
theorem no_empty_batch_artifact_witness :
    ([⟨sampleId, "payload", none⟩] : List AppData) ≠ [] :=
  no_empty_batch_artifact okFetch (fun _ _ => none) false 1 none [sampleId]
    [⟨sampleId, "payload", none⟩] (by decide)

/-! ### C3: resumability and idempotence -/

/-- Every identifier of the run whose detail fetch would succeed is in
the final checkpoint's `scraped_app_ids` (whether it was already
completed or freshly fetched). -/
theorem run_scraped_complete (fetchD : String → Nat → Option AppData)
    (fetchR : String → Nat → Option (List String)) (incl : Bool) (si : Nat)
    (store : Option Checkpoint) (appIds : List String)
    (hs : ∀ a ∈ appIds, ((scrape_app_safely (fetchD a) a 3).result).isSome = true) :
    ∀ a ∈ appIds,
      a ∈ (batch_scrape_apps fetchD fetchR incl si store appIds).checkpoint.scraped_app_ids := by
  intro a ha
  simp only [batch_scrape_apps]
  by_cases h0 : appIds.filter
      (fun x => decide (x ∉ (load_checkpoint store).scraped_app_ids.dedup)) = []
  · rw [if_pos h0]
    dsimp only
    by_contra hna
    have hmem : a ∈ appIds.filter
        (fun x => decide (x ∉ (load_checkpoint store).scraped_app_ids.dedup)) := by
      rw [List.mem_filter]
      refine ⟨ha, ?_⟩
      simp [List.mem_dedup, hna]
    rw [h0] at hmem
    cases hmem
  · rw [if_neg h0]
    dsimp only
    by_cases hin : a ∈ (load_checkpoint store).scraped_app_ids.dedup
    · exact runLoop_scraped_mono fetchD fetchR incl si _ 0 _ _ _ _ hin
    · have hmem : a ∈ appIds.filter
          (fun x => decide (x ∉ (load_checkpoint store).scraped_app_ids.dedup)) := by
        rw [List.mem_filter]
        exact ⟨ha, by simpa using hin⟩
      exact runLoop_success_mem fetchD fetchR incl si _ 0 _ _ _ _ a hmem (hs a ha)

/-- C3: the run processes exactly `identifiers − completed` (set
difference by identifier equality), and — when every identifier's detail
fetch succeeds — a second run over the same identifier set starting from
the first run's checkpoint is a no-op: it processes nothing, writes no
batch artifact, and returns the first run's checkpoint unchanged. -/
theorem batch_runner_idempotent (fetchD : String → Nat → Option AppData)
    (fetchR : String → Nat → Option (List String)) (incl : Bool) (si : Nat)
    (store : Option Checkpoint) (appIds : List String)
    (hs : ∀ a ∈ appIds, ((scrape_app_safely (fetchD a) a 3).result).isSome = true) :
    (batch_scrape_apps fetchD fetchR incl si store appIds).processed
        = appIds.filter (fun a => decide (a ∉ (load_checkpoint store).scraped_app_ids))
    ∧ batch_scrape_apps fetchD fetchR incl si
        (some (batch_scrape_apps fetchD fetchR incl si store appIds).checkpoint) appIds
      = ⟨(batch_scrape_apps fetchD fetchR incl si store appIds).checkpoint, [], []⟩ := by
  constructor
  · simp only [batch_scrape_apps]
    by_cases h0 : appIds.filter
        (fun x => decide (x ∉ (load_checkpoint store).scraped_app_ids.dedup)) = []
    · rw [if_pos h0]
      dsimp only
      rw [← filter_not_mem_dedup (load_checkpoint store).scraped_app_ids appIds, h0]
    · rw [if_neg h0]
      dsimp only
      rw [runLoop_processed]
      simp [filter_not_mem_dedup]
  · have hall := run_scraped_complete fetchD fetchR incl si store appIds hs
    set c1 := (batch_scrape_apps fetchD fetchR incl si store appIds).checkpoint with hc1
    have hrem : appIds.filter
        (fun a => decide (a ∉ c1.scraped_app_ids.dedup)) = [] := by
      rw [List.filter_eq_nil_iff]
      intro a ha
      simp [List.mem_dedup]
      exact hall a ha
    rw [batch_scrape_apps]
    dsimp only [load_checkpoint]
    rw [if_pos hrem]

/-- C3 witness: a two-identifier always-successful run from an empty
store processes both identifiers; rerunning from its checkpoint is a
no-op returning the same checkpoint. -/
theorem batch_runner_idempotent_witness :
    (batch_scrape_apps okFetch (fun _ _ => none) false 10 none [sampleId, exampleApp]).processed
        = [sampleId, exampleApp].filter
            (fun a => decide (a ∉ (load_checkpoint none).scraped_app_ids))
    ∧ batch_scrape_apps okFetch (fun _ _ => none) false 10
        (some (batch_scrape_apps okFetch (fun _ _ => none) false 10 none
          [sampleId, exampleApp]).checkpoint) [sampleId, exampleApp]
      = ⟨(batch_scrape_apps okFetch (fun _ _ => none) false 10 none
          [sampleId, exampleApp]).checkpoint, [], []⟩ :=
  batch_runner_idempotent okFetch (fun _ _ => none) false 10 none [sampleId, exampleApp]
    (by decide)

/-! ### C4: flush cadence -/

/-- Flush cadence of the loop when every detail fetch succeeds: the
position counter `idx` (not a success counter) drives the flushes, so
starting with `idx % s` records accumulated, every artifact written
during the loop has size exactly `s` — one artifact per completed
interval of the counter — and the accumulator ends with
`(idx + l.length) % s` records. -/
theorem runLoop_allSuccess_sizes (fetchD : String → Nat → Option AppData)
    (fetchR : String → Nat → Option (List String)) (incl : Bool) (s : Nat) (hs : 0 < s) :
    ∀ (l : List String) (idx : Nat) (ids : List String) (acc : List AppData)
      (bs : List (List AppData)) (pr : List String),
    (∀ a ∈ l, ((scrape_app_safely (fetchD a) a 3).result).isSome = true) →
    acc.length = idx % s →
    (runLoop fetchD fetchR incl s l idx ⟨ids, acc, bs, pr⟩).batches.map List.length
        = bs.map List.length ++ List.replicate ((idx + l.length) / s - idx / s) s
    ∧ (runLoop fetchD fetchR incl s l idx ⟨ids, acc, bs, pr⟩).accum.length
        = (idx + l.length) % s := by
  intro l
  induction l with
  | nil =>
    intro idx ids acc bs pr _ hacc
    constructor
    · simp [runLoop]
    · simpa [runLoop] using hacc
  | cons a rest ih =>
    intro idx ids acc bs pr hsucc hacc
    have htail : ∀ x ∈ rest, ((scrape_app_safely (fetchD x) x 3).result).isSome = true :=
      fun x hx => hsucc x (List.mem_cons_of_mem a hx)
    have hhead := hsucc a (List.mem_cons_self a rest)
    rw [runLoop]
    cases hres : (scrape_app_safely (fetchD a) a 3).result with
    | none => rw [hres] at hhead; cases hhead
    | some d =>
      dsimp only
      generalize (if incl = true then
          { d with scraped_reviews := some (scrape_reviews_safely (fetchR a) a).result }
          else d) = d2
      have hne : acc ++ [d2] ≠ [] := by simp
      have hnum : idx + 1 + rest.length = idx + (rest.length + 1) := by omega
      by_cases hflush : (idx + 1) % s = 0
      · obtain ⟨hm, hdiv⟩ := flush_mod_eq hs hflush
        rw [if_pos hflush]
        obtain ⟨ihb, iha⟩ := ih (idx + 1) (addId ids a) []
          (saveBatch bs (acc ++ [d2])) (pr ++ [a]) htail (by simp [hflush])
        have hlen : (acc ++ [d2]).length = s := by
          simp only [List.length_append, List.length_singleton, hacc]
          exact hm
        have harith : (idx + 1 + rest.length) / s - (idx + 1) / s + 1
            = (idx + (rest.length + 1)) / s - idx / s := by
          have hmono : (idx + 1) / s ≤ (idx + (rest.length + 1)) / s :=
            Nat.div_le_div_right (by omega)
          rw [hdiv] at hmono
          rw [hnum, hdiv]
          generalize (idx + (rest.length + 1)) / s = u at hmono ⊢
          generalize idx / s = v at hmono ⊢
          omega
        constructor
        · rw [ihb, saveBatch, if_neg hne, List.map_append]
          simp only [List.map_cons, List.map_nil, List.length_cons, hlen,
            List.append_assoc, List.singleton_append]
          rw [← List.replicate_succ, harith]
        · rw [iha, hnum]
          rfl
      · obtain ⟨hm2, hdiv2⟩ := noflush_mod_eq hs hflush
        rw [if_neg hflush]
        obtain ⟨ihb, iha⟩ := ih (idx + 1) (addId ids a) (acc ++ [d2]) bs (pr ++ [a]) htail
          (by
            simp only [List.length_append, List.length_singleton, hacc]
            exact hm2.symm)
        constructor
        · rw [ihb, hnum, hdiv2]
          rfl
        · rw [iha, hnum]
          rfl

/-- C4 counterexample: `save_interval = 2`, three identifiers of which
the first fails and the other two succeed. The claim (a flush after
every 2 *successfully* processed identifiers) predicts one artifact of
size 2; the code flushes on the position counter `(idx + 1) % 2 == 0`
and produces two artifacts of size 1 each. -/
theorem flush_cadence_cex :
    (batch_scrape_apps mixedFetch (fun _ _ => none) false 2 none
        [idA, idB, idC]).batches.map List.length = [1, 1]
    ∧ [1, 1] ≠ ([2] : List Nat) := by
  exact ⟨by decide, by decide⟩

/-- C4 (amended): the flush counter indexes *processed* identifiers
(successes and failures alike), so when every remaining identifier's
detail fetch succeeds the run writes one artifact of size
`flush_interval` per completed interval plus a final partial artifact:
sizes `replicate (n / s) s ++ [n % s]` (the remainder omitted when 0)
for `n` remaining identifiers. In particular 25 identifiers with
`flush_interval = 10` give exactly 3 artifacts of sizes 10, 10, 5. -/
theorem flush_cadence_amended (fetchD : String → Nat → Option AppData)
    (fetchR : String → Nat → Option (List String)) (incl : Bool) (s : Nat)
    (store : Option Checkpoint) (appIds : List String) (hs0 : 0 < s)
    (hs : ∀ a ∈ appIds, ((scrape_app_safely (fetchD a) a 3).result).isSome = true) :
    (batch_scrape_apps fetchD fetchR incl s store appIds).batches.map List.length
      = List.replicate
          ((appIds.filter (fun a => decide (a ∉ (load_checkpoint store).scraped_app_ids))).length / s) s
        ++ (if (appIds.filter (fun a => decide (a ∉ (load_checkpoint store).scraped_app_ids))).length % s = 0
            then []
            else [(appIds.filter
                (fun a => decide (a ∉ (load_checkpoint store).scraped_app_ids))).length % s]) := by
  rw [← filter_not_mem_dedup (load_checkpoint store).scraped_app_ids appIds]
  simp only [batch_scrape_apps]
  by_cases h0 : appIds.filter
      (fun a => decide (a ∉ (load_checkpoint store).scraped_app_ids.dedup)) = []
  · rw [if_pos h0, h0]
    simp
  · rw [if_neg h0]
    dsimp only
    obtain ⟨ihb, iha⟩ := runLoop_allSuccess_sizes fetchD fetchR incl s hs0
      (appIds.filter (fun a => decide (a ∉ (load_checkpoint store).scraped_app_ids.dedup))) 0
      ((load_checkpoint store).scraped_app_ids.dedup) [] [] []
      (fun a ha => hs a (List.mem_of_mem_filter ha)) (by simp)
    simp only [Nat.zero_add, Nat.zero_div, Nat.sub_zero, List.map_nil,
      List.nil_append] at ihb iha
    by_cases hacc : (runLoop fetchD fetchR incl s
        (appIds.filter (fun a => decide (a ∉ (load_checkpoint store).scraped_app_ids.dedup))) 0
        ⟨(load_checkpoint store).scraped_app_ids.dedup, [], [], []⟩).accum = []
    · rw [if_pos hacc]
      have hmod : (appIds.filter
          (fun a => decide (a ∉ (load_checkpoint store).scraped_app_ids.dedup))).length % s = 0 := by
        rw [← iha, hacc]
        simp
      rw [ihb, hmod]
      simp
    · rw [if_neg hacc]
      have hmod : (appIds.filter
          (fun a => decide (a ∉ (load_checkpoint store).scraped_app_ids.dedup))).length % s ≠ 0 := by
        intro hz
        apply hacc
        rw [← List.length_eq_zero, iha]
        exact hz
      rw [saveBatch, if_neg hacc, List.map_append, ihb]
      simp only [List.map_cons, List.map_nil]
      rw [iha, if_neg hmod]

/-- C4 witness: the amended cadence law evaluated on 25 always-successful
identifiers with `flush_interval = 10`: exactly 3 artifacts of sizes
10, 10 and 5. -/
theorem flush_cadence_amended_witness :
    (batch_scrape_apps okFetch (fun _ _ => none) false 10 none ids25).batches.map List.length
      = [10, 10, 5] :=
  (flush_cadence_amended okFetch (fun _ _ => none) false 10 none ids25 (by omega)
    (by decide)).trans (by decide)

/-! ### C7: reviews fetch and failure isolation -/

/-- C7 counterexample: `scrape_reviews_safely` performs exactly one
invocation of the reviews operation — it is not routed through the Retry
Policy. For an operation that fails once and then succeeds, the code
returns `[]` after 1 call, whereas the Retry Policy over the same
operation (the code's own retry wrapper with its 3 attempts) returns the
reviews after 2 calls. -/
theorem reviews_retry_cex :
    (scrape_reviews_safely flakyReviews sampleId).calls = 1
    ∧ (scrape_reviews_safely flakyReviews sampleId).result = []
    ∧ (scrape_app_safely flakyReviews sampleId 3).result = some [exampleApp]
    ∧ (scrape_app_safely flakyReviews sampleId 3).calls = 2
    ∧ (1 : Nat) ≠ 2 := by
  exact ⟨by decide, by decide, by decide, by decide, by decide⟩

/-- C7 (amended): when the detail fetch for an identifier succeeds and
`include_reviews` is set, the reviews fetch is attempted exactly once
(not via the Retry Policy), and a reviews failure does not invalidate the
detail success: the record is still appended — with `scraped_reviews`
set to the empty list — and the identifier still enters `completed`. -/
theorem reviews_failure_empty_list (fetchD : String → Nat → Option AppData)
    (fetchR : String → Nat → Option (List String)) (si : Nat)
    (store : Option Checkpoint) (appId : String) (d : AppData)
    (hd : (scrape_app_safely (fetchD appId) appId 3).result = some d)
    (hr : fetchR appId 0 = none)
    (hnot : appId ∉ (load_checkpoint store).scraped_app_ids) :
    (scrape_reviews_safely (fetchR appId) appId).calls = 1
    ∧ (scrape_reviews_safely (fetchR appId) appId).result = []
    ∧ (batch_scrape_apps fetchD fetchR true si store [appId]).batches
        = [[{ d with scraped_reviews := some [] }]]
    ∧ appId ∈ (batch_scrape_apps fetchD fetchR true si store [appId]).checkpoint.scraped_app_ids := by
  have hrt : scrape_reviews_safely (fetchR appId) appId
      = ⟨[], [failReviewsMsg appId], 1⟩ := by
    rw [scrape_reviews_safely, hr]
  have hfilter : [appId].filter
      (fun a => decide (a ∉ (load_checkpoint store).scraped_app_ids.dedup)) = [appId] := by
    simp [List.mem_dedup, hnot]
  refine ⟨by rw [hrt], by rw [hrt], ?_, ?_⟩
  · simp only [batch_scrape_apps, hfilter]
    rw [if_neg (by simp : ¬([appId] : List String) = [])]
    dsimp only
    rw [runLoop, hd]
    dsimp only
    rw [hrt]
    dsimp only
    by_cases hsi : (0 + 1) % si = 0
    · rw [if_pos hsi, runLoop]
      dsimp only
      simp [saveBatch]
    · rw [if_neg hsi, runLoop]
      dsimp only
      simp [saveBatch]
  · simp only [batch_scrape_apps, hfilter]
    rw [if_neg (by simp : ¬([appId] : List String) = [])]
    dsimp only
    rw [runLoop, hd]
    dsimp only
    by_cases hsi : (0 + 1) % si = 0
    · rw [if_pos hsi, runLoop]
      dsimp only
      exact (mem_addId _ _ _).mpr (Or.inr rfl)
    · rw [if_neg hsi, runLoop]
      dsimp only
      exact (mem_addId _ _ _).mpr (Or.inr rfl)

/-- C7 witness: the amended reviews law at a concrete always-successful
detail fetch and a reviews fetch that raises. -/
theorem reviews_failure_empty_list_witness :
    (scrape_reviews_safely ((fun _ _ => none) idB) idB).calls = 1
    ∧ (scrape_reviews_safely ((fun _ _ => none) idB) idB).result = []
    ∧ (batch_scrape_apps okFetch (fun _ _ => none) true 10 none [idB]).batches
        = [[{ (⟨idB, "payload", none⟩ : AppData) with scraped_reviews := some [] }]]
    ∧ idB ∈ (batch_scrape_apps okFetch (fun _ _ => none) true 10 none [idB]).checkpoint.scraped_app_ids :=
  reviews_failure_empty_list okFetch (fun _ _ => none) 10 none idB
    ⟨idB, "payload", none⟩ (by decide) rfl (by decide)

/-! ### C8: discovery deduplication -/

/-- Folding `set.add` over a hit list preserves duplicate-freeness. -/
theorem foldl_addId_nodup (rs : List String) :
    ∀ acc : List String, acc.Nodup → (rs.foldl addId acc).Nodup := by
  induction rs with
  | nil => intro acc h; exact h
  | cons r rest ih => intro acc h; exact ih _ (nodup_addId _ _ h)

/-- Membership after folding `set.add` over a hit list: the old members
plus the hits. -/
theorem mem_foldl_addId (rs : List String) :
    ∀ (acc : List String) (y : String),
    y ∈ rs.foldl addId acc ↔ y ∈ acc ∨ y ∈ rs := by
  induction rs with
  | nil => intro acc y; simp
  | cons r rest ih =>
    intro acc y
    rw [List.foldl_cons, ih, mem_addId]
    constructor
    · rintro ((h | rfl) | h)
      · exact Or.inl h
      · exact Or.inr (List.mem_cons_self _ _)
      · exact Or.inr (List.mem_cons_of_mem _ h)
    · rintro (h | h)
      · exact Or.inl (Or.inl h)
      · rcases List.mem_cons.mp h with rfl | h2
        · exact Or.inl (Or.inr rfl)
        · exact Or.inr h2

/-- The discovery fold keeps the accumulated id set duplicate-free. -/
theorem discover_fold_nodup (search : String → Option (List String))
    (categories : List String) :
    ∀ acc : List String, acc.Nodup →
    (categories.foldl (fun acc cat =>
      match search cat with
      | some results => results.foldl addId acc
      | none => acc) acc).Nodup := by
  induction categories with
  | nil => intro acc h; exact h
  | cons c rest ih =>
    intro acc h
    rw [List.foldl_cons]
    cases hc : search c with
    | none => exact ih _ h
    | some rs => exact ih _ (foldl_addId_nodup rs acc h)

/-- Membership in the discovery fold: the starting members plus every
hit of every successful query. -/
theorem discover_fold_mem (search : String → Option (List String))
    (categories : List String) :
    ∀ (acc : List String) (y : String),
    y ∈ categories.foldl (fun acc cat =>
        match search cat with
        | some results => results.foldl addId acc
        | none => acc) acc
      ↔ y ∈ acc ∨ ∃ cat ∈ categories, ∃ rs, search cat = some rs ∧ y ∈ rs := by
  induction categories with
  | nil => intro acc y; simp
  | cons c rest ih =>
    intro acc y
    rw [List.foldl_cons]
    cases hc : search c with
    | none =>
      rw [ih]
      constructor
      · rintro (h | ⟨cat, hcat, rs, hrs, hy⟩)
        · exact Or.inl h
        · exact Or.inr ⟨cat, List.mem_cons_of_mem _ hcat, rs, hrs, hy⟩
      · rintro (h | ⟨cat, hcat, rs, hrs, hy⟩)
        · exact Or.inl h
        · rcases List.mem_cons.mp hcat with rfl | h2
          · rw [hc] at hrs; cases hrs
          · exact Or.inr ⟨cat, h2, rs, hrs, hy⟩
    | some rs0 =>
      rw [ih, mem_foldl_addId]
      constructor
      · rintro ((h | h) | ⟨cat, hcat, rs, hrs, hy⟩)
        · exact Or.inl h
        · exact Or.inr ⟨c, List.mem_cons_self _ _, rs0, hc, h⟩
        · exact Or.inr ⟨cat, List.mem_cons_of_mem _ hcat, rs, hrs, hy⟩
      · rintro (h | ⟨cat, hcat, rs, hrs, hy⟩)
        · exact Or.inl (Or.inl h)
        · rcases List.mem_cons.mp hcat with rfl | h2
          · rw [hc] at hrs
            injection hrs with he
            subst he
            exact Or.inl (Or.inr hy)
          · exact Or.inr ⟨cat, h2, rs, hrs, hy⟩

/-- C8: the Discovery Stage output contains each identifier at most once
(count exactly 1 for present identifiers), and an identifier is in the
output iff some query's successful result list contains it — so two
queries both returning the same identifier still contribute one output
entry. -/
theorem discovery_dedup (search : String → Option (List String))
    (categories : List String) :
    (∀ appId ∈ discover_apps_by_categories search categories,
        (discover_apps_by_categories search categories).count appId = 1)
    ∧ (∀ appId, appId ∈ discover_apps_by_categories search categories
        ↔ ∃ cat ∈ categories, ∃ rs, search cat = some rs ∧ appId ∈ rs) := by
  have hnodup : (discover_apps_by_categories search categories).Nodup :=
    discover_fold_nodup search categories [] List.nodup_nil
  constructor
  · intro appId hmem
    exact List.count_eq_one_of_mem hnodup hmem
  · intro appId
    rw [discover_apps_by_categories, discover_fold_mem]
    simp

/-- C8 witness: two queries whose results both contain
`com.example.app`; the discovery output contains it exactly once. -/
theorem discovery_dedup_witness :
    (discover_apps_by_categories overlappingSearch [catSocial, catGames]).count exampleApp = 1 :=
  (discovery_dedup overlappingSearch [catSocial, catGames]).1 exampleApp (by decide)
